import Mathlib

/-!
Verification of the SCoP combinator core (src/scop.c) against its
natural-language specification.

The development is a shallow embedding.  The external algebra provider
(exact integer-point sets and relations over named parameters) is modelled
semantically: a set is its characteristic function.  Parameter valuations
are total maps from a finite identifier type `V` to a finite value type `W`;
iteration points and array index tuples are finite tuples `Fin n → W`.
With `V` and `W` finite, every subset / fixed-value query that the C code
performs through the algebra provider is decidable and all definitions are
executable.

Modelling conventions, used throughout and noted again at the definitions
they concern:
* `isl_set_coalesce` only changes the constraint representation of a set,
  never its points; a semantic set is its points, so it is the identity.
* isl `plain_*` queries inspect the representation, and may in principle
  answer "don't know"; they are modelled by the exact semantic query.
* an isl "dimension named by an identifier is present" test is modelled
  by the corresponding semantic test on the valuation component for that
  identifier; a set that does not carry a parameter dimension cannot
  depend on it, so the two agree, except where noted.
* tuple-id bookkeeping (`isl_id`) is modelled by `TupId`: an identifier
  name together with the "has a user pointer" bit that distinguishes real
  program entities from compiler-synthesized (virtual) ones.
-/

/-- Parameter valuations: one value for every identifier. -/
abbrev Param (V W : Type) := V → W

/-- A parameter-only set of the algebra provider (`isl_set` over a
zero-dimensional space), modelled by its characteristic function. -/
abbrev SetP (V W : Type) := Param V W → Bool

section Core

variable {V W : Type} [DecidableEq V] [Fintype V] [DecidableEq W] [Fintype W]
variable [Zero W] [One W]

/-- Intersection of parameter sets (`isl_set_intersect`). -/
def isl_set_intersect (s1 s2 : SetP V W) : SetP V W :=
  fun p => s1 p && s2 p

/-- Union of parameter sets (`isl_set_union`). -/
def isl_set_union (s1 s2 : SetP V W) : SetP V W :=
  fun p => s1 p || s2 p

/-- Complement of a parameter set (`isl_set_complement`). -/
def isl_set_complement (s : SetP V W) : SetP V W :=
  fun p => !s p

/-- Coalescing only simplifies the constraint representation of a set while
keeping its points; on semantic sets it is the identity
(`isl_set_coalesce`). -/
def isl_set_coalesce (s : SetP V W) : SetP V W := s

/-- Modelled from the spec: `pet_nested_remove_from_set` (nest.c, not part
of the provided sources) projects out the parameters that encode nested
accesses.  The model's parameter space carries no such encoding, so there
is nothing to remove. -/
def pet_nested_remove_from_set (s : SetP V W) : SetP V W := s

/-- A piecewise affine expression over a zero-dimensional domain
(`isl_pw_aff` as used for skip conditions): a definition domain over the
parameters and the value taken on it. -/
structure PwAff (V W : Type) where
  dom : SetP V W
  v : Param V W → W

/-- Definition domain of a piecewise affine expression
(`isl_pw_aff_domain`). -/
def isl_pw_aff_domain (pa : PwAff V W) : SetP V W := pa.dom

/-- Subset of the definition domain where the expression is non-zero
(`isl_pw_aff_non_zero_set`). -/
def isl_pw_aff_non_zero_set (pa : PwAff V W) : SetP V W :=
  fun p => pa.dom p && decide (pa.v p ≠ 0)

/-- Subset of the definition domain where the expression is zero
(`isl_pw_aff_zero_set`). -/
def isl_pw_aff_zero_set (pa : PwAff V W) : SetP V W :=
  fun p => pa.dom p && decide (pa.v p = 0)

/-- The expression that is 1 on "set" and 0 elsewhere
(`isl_set_indicator_function`), defined everywhere. -/
def isl_set_indicator_function (set : SetP V W) : PwAff V W :=
  { dom := fun _ => true, v := fun p => if set p then 1 else 0 }

/-- Restriction of the definition domain of a piecewise affine expression
(`isl_pw_aff_intersect_domain`). -/
def isl_pw_aff_intersect_domain (pa : PwAff V W) (s : SetP V W) : PwAff V W :=
  { dom := isl_set_intersect pa.dom s, v := pa.v }

/-- Return the piecewise affine expression "set ? 1 : 0" defined on "dom"
(scop.c `indicator_function`). -/
def indicator_function (set dom : SetP V W) : PwAff V W :=
  isl_pw_aff_intersect_domain (isl_set_indicator_function set) dom

/-- Return "lhs || rhs", defined on the shared definition domain
(scop.c `pw_aff_or`). -/
def pw_aff_or (lhs rhs : PwAff V W) : PwAff V W :=
  let dom := isl_set_intersect (isl_pw_aff_domain lhs) (isl_pw_aff_domain rhs)
  let cond := isl_set_coalesce
    (isl_set_union (isl_pw_aff_non_zero_set lhs) (isl_pw_aff_non_zero_set rhs))
  indicator_function cond dom

end Core

/-- An identifier of the algebra provider (`isl_id`): a name together with
whether the identifier carries a user pointer.  Virtual (compiler
synthesized) entities are exactly those whose identifier carries no user
pointer. -/
structure TupId (V : Type) where
  name : V
  hasUser : Bool
deriving DecidableEq

/-- A skip condition: an index expression over a zero-dimensional domain
(scop.c `pet_scop_ext.skip`), either a boolean affine expression or an
access to a 0/1-valued virtual variable. -/
inductive SkipCond (V W : Type) where
  | affine (pa : PwAff V W)
  | acc (id : TupId V) (dom : SetP V W)

/-- Does the index expression represent an access to an element of an
unnamed space, i.e. an affine expression?
(scop.c `multi_pw_aff_is_affine` applied to a skip condition.) -/
def multi_pw_aff_is_affine {V W : Type} : SkipCond V W → Bool
  | .affine _ => true
  | .acc _ _ => false

/-- A source location (`pet_loc`, modelled from the spec: a byte-range
source span; loc.c is not part of the provided sources). -/
structure Loc where
  lo : Nat
  hi : Nat
  line : Int
deriving DecidableEq

/-- An auxiliary type declaration carried by a scop (`pet_type`); names and
textual definitions are modelled as interned numbers. -/
structure PetType where
  name : Nat
  defn : Nat
deriving DecidableEq

/-- An access expression's polyhedral content (`pet_expr` access node):
the access relation from a `dim`-dimensional statement space to an
`adim`-dimensional array element space, the array's tuple identifier (none
for an affine index expression) and whether the range space is a wrapping
space. -/
structure Access (V W : Type) where
  dim : Nat
  adim : Nat
  id : Option (TupId V)
  rangeWraps : Bool
  rel : Param V W → (Fin dim → W) → (Fin adim → W) → Bool

/-- An expression tree node as far as the combinators inspect it: either an
access node or some other (operator) node.  The combinators of scop.c
either traverse exactly the access nodes (`pet_expr_map_access`) or treat
the expression as opaque data. -/
inductive PExpr (V W : Type) where
  | access (a : Access V W)
  | other

/-- An implication (`pet_implication`): a recorded fact that elements of a
virtual array reachable through `ext` satisfy the same test outcome
`satisfied`.  The extension relation maps elements of the `edim`-dimensional
element space of the array identified by `id` to elements of the same
space. -/
structure Imp (V W : Type) where
  satisfied : W
  id : TupId V
  edim : Nat
  ext : Param V W → (Fin edim → W) → (Fin edim → W) → Bool

/-- A statement (`pet_stmt`).  The iteration domain is kept in unwrapped
form: a relation from the `dim`-dimensional iteration space to the
`nArg`-dimensional tuple of argument values (for `nArg = 0` this is a plain
iteration-domain set, matching the non-wrapped representation in the C
code). -/
structure Stmt (V W : Type) where
  loc : Option Loc
  dim : Nat
  nArg : Nat
  domain : Param V W → (Fin dim → W) → (Fin nArg → W) → Bool
  sd : Nat
  schedule : Param V W → (Fin dim → W) → (Fin sd → W) → Bool
  args : List (PExpr V W)
  body : List (PExpr V W)

/-- An array (`pet_array`).  The extent is a set over an `adim`-dimensional
index space whose tuple identifier and wrapping status are carried
alongside. -/
structure PArray (V W : Type) where
  adim : Nat
  context : SetP V W
  extent : Param V W → (Fin adim → W) → Bool
  extentId : Option (TupId V)
  extentWraps : Bool
  valueBounds : Option (W → Bool)
  elementType : Nat
  elementIsRecord : Bool
  elementSize : Int
  liveOut : Bool
  uniquelyDefined : Bool
  declared : Bool
  exposed : Bool

/-- A scop (`pet_scop` together with the skip conditions of
`pet_scop_ext`).  `loc = none` corresponds to `&pet_loc_dummy`. -/
structure Scop (V W : Type) where
  context : SetP V W
  contextValue : SetP V W
  types : List PetType
  arrays : List (PArray V W)
  stmts : List (Stmt V W)
  implications : List (Imp V W)
  skipNow : Option (SkipCond V W)
  skipLater : Option (SkipCond V W)
  loc : Option Loc

/-- The two skip types (`enum pet_skip`). -/
inductive SkipTy where
  | now
  | later
deriving DecidableEq

/-- Read the skip condition of the given type (`pet_scop_ext.skip[type]`). -/
def Scop.skip {V W : Type} (sc : Scop V W) : SkipTy → Option (SkipCond V W)
  | .now => sc.skipNow
  | .later => sc.skipLater

/-- Replace the skip condition of the given type (used for
`pet_scop_set_skip` and direct stores to `ext->skip[type]`). -/
def set_skip {V W : Type} (sc : Scop V W) : SkipTy → Option (SkipCond V W) → Scop V W
  | .now, k => { sc with skipNow := k }
  | .later, k => { sc with skipLater := k }

section Combine

variable {V W : Type} [DecidableEq V] [Fintype V] [DecidableEq W] [Fintype W]
variable [Zero W] [One W]

/-- Combine two skip conditions of the same type (scop.c `combine_skips`,
for one value of `type`).  `none` is returned exactly on the fatal
"can only combine affine skips" path. -/
def combine_skips :
    Option (SkipCond V W) → Option (SkipCond V W) → Option (Option (SkipCond V W))
  | none, none => some none
  | none, some k2 => some (some k2)
  | some k1, none => some (some k1)
  | some k1, some k2 =>
    match k1, k2 with
    | .affine pa1, .affine pa2 => some (some (.affine (pw_aff_or pa1 pa2)))
    | _, _ => none

/-- Combine the skip conditions of `sc1` and `sc2` into `sc`
(scop.c `scop_combine_skips`). -/
def scop_combine_skips (sc sc1 sc2 : Scop V W) : Option (Scop V W) :=
  match combine_skips sc1.skipNow sc2.skipNow,
      combine_skips sc1.skipLater sc2.skipLater with
  | some n, some l => some { sc with skipNow := n, skipLater := l }
  | _, _ => none

/-- Extension-relation equality of two implications: equal spaces (tuple
identifier and dimension) and equal relations (`isl_map_is_equal` on
`pet_implication.extension`). -/
def imp_ext_equal (pi im : Imp V W) : Bool :=
  decide (pi.id = im.id) &&
    (if h : pi.edim = im.edim then
      decide (∀ (p : Param V W) (e f : Fin im.edim → W),
        pi.ext p (fun k => e (Fin.cast h k)) (fun k => f (Fin.cast h k)) = im.ext p e f)
    else false)

/-- Does "im" appear in the list of implications
(scop.c `is_known_implication`)? -/
def is_known_implication (impls : List (Imp V W)) (im : Imp V W) : Bool :=
  impls.any fun pi => decide (pi.satisfied = im.satisfied) && imp_ext_equal pi im

/-- Concatenate the implications of `sc1` and `sc2`, dropping those of
`sc2` that already appear among those of `sc1`
(scop.c `scop_collect_implications`). -/
def scop_collect_implications (sc1 sc2 : Scop V W) : List (Imp V W) :=
  if sc2.implications.isEmpty then sc1.implications
  else if sc1.implications.isEmpty then sc2.implications
  else sc1.implications ++
    sc2.implications.filter (fun im => !is_known_implication sc1.implications im)

/-- Intersect the context of a scop with "context"
(scop.c `pet_scop_restrict_context`). -/
def pet_scop_restrict_context (sc : Scop V W) (context : SetP V W) : Scop V W :=
  { sc with context := isl_set_intersect sc.context (pet_nested_remove_from_set context) }

/-- Update the location of a scop to include the byte range from `lo` to
`hi` (scop.c `pet_scop_update_start_end`; the underlying
`pet_loc_update_start_end` of loc.c is modelled from the spec: source spans
aggregate by extending the min/max offsets). -/
def pet_scop_update_start_end (sc : Scop V W) (lo hi : Nat) : Scop V W :=
  { sc with loc := match sc.loc with
      | none => some { lo := lo, hi := hi, line := -1 }
      | some l => some { lo := min l.lo lo, hi := max l.hi hi, line := l.line } }

/-- Update the location of a scop to include the region identified by `l`
(scop.c `pet_scop_update_start_end_from_loc`). -/
def pet_scop_update_start_end_from_loc (sc : Scop V W) (l : Loc) : Scop V W :=
  pet_scop_update_start_end sc l.lo l.hi

/-- Combine the offset information of `sc1` and `sc2` into `sc`
(scop.c `scop_combine_start_end`). -/
def scop_combine_start_end (sc sc1 sc2 : Scop V W) : Scop V W :=
  let sca := match sc1.loc with
    | none => sc
    | some l => pet_scop_update_start_end_from_loc sc l
  match sc2.loc with
  | none => sca
  | some l => pet_scop_update_start_end_from_loc sca l

/-- Construct a scop containing the offset information, arrays, statements
and skip information of `sc1` and `sc2` (scop.c `pet_scop_add`).  A scop
without statements acts as the identity up to merging of skip conditions.
In the main branch the result starts from a freshly allocated scop
(`scop_alloc`: universal context and context_value, no types, dummy
location), receives the concatenated statement and array lists, the merged
implications, the conjunction of both contexts, the combined skips and the
aggregated location.  `none` is the null return of the C code. -/
def pet_scop_add (sc1 sc2 : Scop V W) : Option (Scop V W) :=
  if sc1.stmts.isEmpty then scop_combine_skips sc2 sc1 sc2
  else if sc2.stmts.isEmpty then scop_combine_skips sc1 sc1 sc2
  else
    match scop_combine_skips
        (pet_scop_restrict_context (pet_scop_restrict_context
          { context := fun _ => true
            contextValue := fun _ => true
            types := []
            arrays := sc1.arrays ++ sc2.arrays
            stmts := sc1.stmts ++ sc2.stmts
            implications := scop_collect_implications sc1 sc2
            skipNow := none
            skipLater := none
            loc := none } sc1.context) sc2.context) sc1 sc2 with
    | none => none
    | some withSkips => some (scop_combine_start_end withSkips sc1 sc2)

end Combine

/-- Map a fallible function over a list, failing as a whole when any
element fails.  This models the C loops that replace every element of an
owned array in place and free the whole scop as soon as one replacement
returns null. -/
def map_opt {A B : Type} (f : A → Option B) : List A → Option (List B)
  | [] => some []
  | x :: xs =>
    match f x, map_opt f xs with
    | some y, some ys => some (y :: ys)
    | _, _ => none

section Restrict

variable {V W : Type} [DecidableEq V] [Fintype V] [DecidableEq W] [Fintype W]
variable [Zero W] [One W]

/-- Add extra conditions on the parameters to the iteration domain of a
statement (scop.c `stmt_restrict`, an `isl_set_intersect_params`). -/
def stmt_restrict (st : Stmt V W) (cond : SetP V W) : Stmt V W :=
  { st with domain := fun p i f => st.domain p i f && cond p }

/-- The restriction of an affine skip expression by a parameter condition
(the body of scop.c `pet_scop_restrict_skip`): the indicator function of
"cond and the old non-zero set" on the old definition domain. -/
def restricted_skip (cond : SetP V W) (pa : PwAff V W) : PwAff V W :=
  indicator_function (isl_set_intersect cond (isl_pw_aff_non_zero_set pa))
    (isl_pw_aff_domain pa)

/-- Add extra conditions to the skip condition of the given type
(scop.c `pet_scop_restrict_skip`).  The new skip condition holds if it held
before and the condition is true.  `none` is the fatal
"can only restrict affine skips" path. -/
def pet_scop_restrict_skip (sc : Scop V W) (t : SkipTy) (cond : SetP V W) :
    Option (Scop V W) :=
  match sc.skip t with
  | none => some sc
  | some (.acc _ _) => none
  | some (.affine pa) =>
    some (set_skip sc t (some (.affine (restricted_skip cond pa))))

/-- Add extra conditions on the parameters to all iteration domains and
skip conditions (scop.c `pet_scop_restrict`).  The new context is
"(old context and cond) or not cond", coalesced. -/
def pet_scop_restrict (sc : Scop V W) (cond : SetP V W) : Option (Scop V W) :=
  match pet_scop_restrict_skip sc .now cond with
  | none => none
  | some sc1 =>
  match pet_scop_restrict_skip sc1 .later cond with
  | none => none
  | some sc2 =>
  some { sc2 with
    context := pet_nested_remove_from_set (isl_set_coalesce
      (isl_set_union (isl_set_intersect sc2.context cond) (isl_set_complement cond)))
    stmts := sc2.stmts.map (fun st => stmt_restrict st cond) }

end Restrict

/-- A boolean test expression for filtering: a one-output multi piecewise
affine index expression (`isl_multi_pw_aff`) with an output tuple
identifier, mapping a `dim`-dimensional domain to an element of the
`adim`-dimensional index space of the (virtual) array `id`.  The tests that
reach `pet_scop_filter` are always accesses to virtual variables. -/
structure Test (V W : Type) where
  id : TupId V
  dim : Nat
  adim : Nat
  dom : Param V W → (Fin dim → W) → Bool
  idx : Param V W → (Fin dim → W) → (Fin adim → W)

section Filter

variable {V W : Type} [DecidableEq V] [Fintype V] [DecidableEq W] [Fintype W]
variable [Zero W] [One W]

/-- Extend a test whose domain covers the first `test.dim` (outer)
dimensions of a `d`-dimensional statement space to the full space, by
pullback along the prefix projection (the `add_dom` pullback performed at
the start of scop.c `stmt_filter`). -/
def test_extend (test : Test V W) (d : Nat) (h : test.dim ≤ d) : Test V W :=
  { test with
    dim := d
    dom := fun p i => test.dom p (fun k => i (Fin.castLE h k))
    idx := fun p i => test.idx p (fun k => i (Fin.castLE h k)) }

/-- The relation underlying an index expression
(`isl_map_from_multi_pw_aff`): the graph of the expression on its
definition domain. -/
def test_map (test : Test V W) :
    Param V W → (Fin test.dim → W) → (Fin test.adim → W) → Bool :=
  fun p i e => test.dom p i && decide (e = test.idx p i)

/-- Modelled from the spec: `pet_expr_from_index` (expr.c, not part of the
provided sources) wraps an index expression into a read access expression
whose access relation is the relation formed from the index expression. -/
def pet_expr_from_index (test : Test V W) : PExpr V W :=
  .access
    { dim := test.dim
      adim := test.adim
      id := some test.id
      rangeWraps := false
      rel := test_map test }

/-- The value the `pos`-th argument dimension is fixed to across the whole
wrapped iteration-domain relation, if any
(`isl_map_plain_get_val_if_fixed` on the unwrapped domain).  The value is
returned only when it is uniquely determined; for an empty relation every
value qualifies, no unique one exists, and `none` (not fixed) results,
matching the failure of the representation-level check of the C code on an
empty map. -/
def plain_fixed_val {d n : Nat}
    (domain : Param V W → (Fin d → W) → (Fin n → W) → Bool) (pos : Fin n) :
    Option W :=
  if h : ∃ w : W, (∀ (p : Param V W) (i : Fin d → W) (f : Fin n → W),
        domain p i f = true → f pos = w) ∧
      ∀ w' : W, (∀ (p : Param V W) (i : Fin d → W) (f : Fin n → W),
        domain p i f = true → f pos = w') → w' = w then
    some (Fintype.choose _ ⟨h.choose, h.choose_spec.1, h.choose_spec.2⟩)
  else none

/-- Look through the implications for one applicable to the filter on the
array identified by `tid` with value `satisfied`, and apply it to `map`
(scop.c `apply_implications`).  At most one implication exists per virtual
array, so the first match is applied.  `none` is the error path of a
space-mismatched `isl_map_apply_range`. -/
def apply_implications (impls : List (Imp V W)) {d m : Nat}
    (map : Param V W → (Fin d → W) → (Fin m → W) → Bool)
    (tid : TupId V) (satisfied : W) :
    Option (Param V W → (Fin d → W) → (Fin m → W) → Bool) :=
  match impls.find? (fun pi => decide (pi.satisfied = satisfied) && decide (pi.id = tid)) with
  | none => some map
  | some pi =>
    if h : pi.edim = m then
      some (fun p i e => decide (∃ mid : Fin m → W,
        map p i mid = true ∧
          pi.ext p (fun k => mid (Fin.cast h k)) (fun k => e (Fin.cast h k)) = true))
    else none

/-- Is the filter expressed by `tid`, `tmap` and `satisfied` implied by the
filter at position `pos` of the wrapped domain, with filter expression
`expr`, taking the implications into account
(scop.c `implies_filter`)?  The filter needs to be an access to the same
virtual array, the filter value needs to equal `satisfied`, and the access
relation, possibly extended by an implication, needs to contain the test
relation.  `none` is the error path (space mismatch in the subset test). -/
def implies_filter (impls : List (Imp V W)) {d n ta : Nat}
    (domain : Param V W → (Fin d → W) → (Fin n → W) → Bool) (pos : Fin n)
    (expr : PExpr V W) (tid : TupId V)
    (tmap : Param V W → (Fin d → W) → (Fin ta → W) → Bool) (satisfied : W) :
    Option Bool :=
  match expr with
  | .other => some false
  | .access a =>
    if a.id ≠ some tid then some false
    else
      match plain_fixed_val domain pos with
      | none => some false
      | some s =>
        if s ≠ satisfied then some false
        else
          if hd : a.dim = d then
            if ha : a.adim = ta then
              let acc : Param V W → (Fin d → W) → (Fin ta → W) → Bool :=
                fun p i e => a.rel p (fun k => i (Fin.cast hd k)) (fun k => e (Fin.cast ha k))
              match apply_implications impls acc tid satisfied with
              | none => none
              | some implied =>
                some (decide (∀ (p : Param V W) (i : Fin d → W) (e : Fin ta → W),
                  tmap p i e = true → implied p i e = true))
            else none
          else none

/-- Iterate `implies_filter` over the argument positions of a statement,
stopping at the first error or the first implied filter (the loop of
scop.c `filter_implied`).  An argument position without a corresponding
argument expression is an invariant violation and an error. -/
def filter_implied_loop (impls : List (Imp V W)) {d n ta : Nat}
    (domain : Param V W → (Fin d → W) → (Fin n → W) → Bool)
    (args : List (PExpr V W)) (tid : TupId V)
    (tmap : Param V W → (Fin d → W) → (Fin ta → W) → Bool) (satisfied : W) :
    List (Fin n) → Option Bool
  | [] => some false
  | pos :: rest =>
    match args.get? pos.val with
    | none => none
    | some e =>
      match implies_filter impls domain pos e tid tmap satisfied with
      | none => none
      | some true => some true
      | some false =>
        filter_implied_loop impls domain args tid tmap satisfied rest

/-- Is the filter expressed by `tid`, `tmap` and `satisfied` implied by any
of the filters on the domain of `st`, taking the implications into account
(scop.c `filter_implied`)?  Nothing is implied when there are no
implications or no filters. -/
def filter_implied (impls : List (Imp V W)) (st : Stmt V W) {ta : Nat}
    (tid : TupId V)
    (tmap : Param V W → (Fin st.dim → W) → (Fin ta → W) → Bool) (satisfied : W) :
    Option Bool :=
  if impls.isEmpty then some false
  else if st.nArg = 0 then some false
  else filter_implied_loop impls st.domain st.args tid tmap satisfied
    (List.finRange st.nArg)

/-- Make the statement depend on the value of `test` being equal to
`satisfied` by adjusting its domain (scop.c `stmt_filter`).  The test is
first extended to the full iteration space; if the resulting filter is
already implied by an existing filter the statement is returned untouched;
otherwise a read of the test is prepended to the argument list
(`args_insert_access`) and the wrapped domain gains a leading argument
dimension pinned to `satisfied` (`pet_filter_insert_pma`, filter.c,
modelled from the spec: extend the wrapped-relation range with one new
leading dimension fixed to the satisfied value). -/
def stmt_filter (impls : List (Imp V W)) (st : Stmt V W) (test : Test V W)
    (satisfied : W) : Option (Stmt V W) :=
  if h : test.dim ≤ st.dim then
    match filter_implied impls st (test_extend test st.dim h).id
        (test_map (test_extend test st.dim h)) satisfied with
    | none => none
    | some true => some st
    | some false =>
      some { st with
        nArg := st.nArg + 1
        domain := fun p i f =>
          decide (f 0 = satisfied) && st.domain p i (fun k => f k.succ)
        args := pet_expr_from_index (test_extend test st.dim h) :: st.args }
  else none

/-- Does the scop have a skip condition of the given type that is affine
and holds on the entire domain (scop.c `pet_scop_has_universal_skip`;
`isl_set_plain_is_universe` is modelled by the semantic universality
test)? -/
def pet_scop_has_universal_skip (sc : Scop V W) (t : SkipTy) : Bool :=
  match sc.skip t with
  | some (.affine pa) => decide (∀ p, isl_pw_aff_non_zero_set pa p = true)
  | _ => false

/-- Convert a test back into a stored skip condition (the
`pet_scop_set_skip` store in scop.c `pet_scop_filter_skip`).  The skip
invariant requires an index expression over a zero-dimensional domain with
a zero-dimensional element space; other shapes cannot be represented as a
skip condition and are an error. -/
def test_to_skip (test : Test V W) : Option (SkipCond V W) :=
  if h : test.dim = 0 then
    if test.adim = 0 then
      some (.acc test.id (fun p => test.dom p (fun k => (Fin.cast h k).elim0)))
    else none
  else none

/-- Make the skip condition of the given type depend on the value of
`test` being equal to `satisfied` (scop.c `pet_scop_filter_skip`).  Only an
unconditional (universal) skip narrowed with `satisfied` true is
supported; every other combination is the fatal
"skip expression cannot be filtered" path. -/
def pet_scop_filter_skip (sc : Scop V W) (t : SkipTy) (test : Test V W)
    (satisfied : W) : Option (Scop V W) :=
  match sc.skip t with
  | none => some sc
  | some _ =>
    if decide (satisfied ≠ 0) && pet_scop_has_universal_skip sc t then
      match test_to_skip test with
      | none => none
      | some k => some (set_skip sc t (some k))
    else none

/-- Make all statements in the scop depend on the value of `test` being
equal to `satisfied` by adjusting their domains
(scop.c `pet_scop_filter`).  The C code hands the scop itself to
`stmt_filter`, which reads only its implication list. -/
def pet_scop_filter (sc : Scop V W) (test : Test V W) (satisfied : W) :
    Option (Scop V W) :=
  match pet_scop_filter_skip sc .now test satisfied with
  | none => none
  | some sc1 =>
  match pet_scop_filter_skip sc1 .later test satisfied with
  | none => none
  | some sc2 =>
  match map_opt (fun st => stmt_filter sc2.implications st test satisfied) sc2.stmts with
  | none => none
  | some stmts => some { sc2 with stmts := stmts }

/-- Apply the skip condition `skip` to a scop, i.e. make sure the scop is
not executed when the condition holds (scop.c `restrict_skip`).  An affine
skip restricts the iteration domains to the parameter region where the
expression is zero; a non-affine skip adds a filter on the variable
attaining the value zero. -/
def restrict_skip (sc : Scop V W) (skip : SkipCond V W) : Option (Scop V W) :=
  match skip with
  | .affine pa => pet_scop_restrict sc (isl_pw_aff_zero_set pa)
  | .acc id dom =>
    pet_scop_filter sc
      { id := id, dim := 0, adim := 0
        dom := fun p _ => dom p
        idx := fun _ _ => Fin.elim0 } 0

/-- Construct a scop containing the arrays, statements and skip
information of `sc1` and `sc2` executed in sequence: breaks and continues
in `sc1` affect `sc2` (scop.c `pet_scop_add_seq`). -/
def pet_scop_add_seq (sc1 sc2 : Scop V W) : Option (Scop V W) :=
  match sc1.skipNow with
  | some sk =>
    match restrict_skip sc2 sk with
    | none => none
    | some sc2' => pet_scop_add sc1 sc2'
  | none => pet_scop_add sc1 sc2

/-- Construct a scop containing the arrays, statements and skip
information of `sc1` and `sc2` executed in parallel: breaks and continues
in `sc1` have no effect on `sc2` (scop.c `pet_scop_add_par`). -/
def pet_scop_add_par (sc1 sc2 : Scop V W) : Option (Scop V W) :=
  pet_scop_add sc1 sc2

end Filter

section Embed

variable {V W : Type} [DecidableEq V] [Fintype V] [DecidableEq W] [Fintype W]
variable [Zero W] [One W]

/-- Does the extent of the array reference a virtual array, i.e. one whose
tuple identifier has a user pointer equal to null
(scop.c `extent_is_virtual_array`)?  A virtual array does not have any
members, so a wrapping extent space is never virtual. -/
def extent_is_virtual_array (a : PArray V W) : Bool :=
  match a.extentId with
  | none => false
  | some id => !a.extentWraps && !id.hasUser

/-- Embed an array in an extra outer loop with iteration domain `dom`
(scop.c `pet_array_embed`).  Only virtual arrays are affected: their extent
becomes the flat product of the loop domain with the old extent, keeping
the tuple identifier; any other array is returned untouched. -/
def pet_array_embed (a : PArray V W) (dom : Param V W → W → Bool) : PArray V W :=
  if extent_is_virtual_array a then
    { a with
      adim := a.adim + 1
      extent := fun p t => dom p (t 0) && a.extent p (fun k => t k.succ) }
  else a

/-- Does a semantic parameter set depend on the parameter named `v`?  This
models the `isl_set_find_dim_by_id` presence test of the C code: a set that
does not carry the parameter dimension cannot depend on it, and a set that
carries it unconstrained is semantically independent of it. -/
def depends_on (s : SetP V W) (v : V) : Bool :=
  decide (∃ (p : Param V W) (w : W), s (Function.update p v w) ≠ s p)

/-- Update the context with respect to an embedding into a loop with
iteration domain `dom` and induction variable `varId`, where `ivMap`
expresses the real iterator in terms of the virtual iterator
(scop.c `context_embed`).  If the context is independent of the iterator it
is unchanged; otherwise a parameter value is valid only if it is valid for
every iterator value in `dom`, i.e. the complement of "there is an
iteration in `dom` whose substituted context fails". -/
def context_embed (context : SetP V W) (dom : Param V W → W → Bool)
    (ivMap : Param V W → W → W) (varId : TupId V) : SetP V W :=
  if depends_on context varId.name then
    pet_nested_remove_from_set (isl_set_complement (fun p =>
      decide (∃ w : W, dom p w = true ∧
        context (Function.update p varId.name (ivMap p w)) = false)))
  else context

/-- Update an implication with respect to an embedding into a loop with
iteration domain `dom` (scop.c `pet_implication_embed`): the extension is
flat-producted with the identity relation on `dom` on both sides, keeping
the tuple identifier, so that the containment fact is pinned to one
iteration of the new loop. -/
def pet_implication_embed (im : Imp V W) (dom : Param V W → W → Bool) : Imp V W :=
  { im with
    edim := im.edim + 1
    ext := fun p e f =>
      decide (e 0 = f 0) && dom p (e 0) &&
        im.ext p (fun k => e k.succ) (fun k => f k.succ) }

/-- Does the access relation reference a virtual array
(scop.c `access_is_virtual_array`)? -/
def access_is_virtual_array (a : Access V W) : Bool :=
  match a.id with
  | none => false
  | some id => !a.rangeWraps && !id.hasUser

/-- Embed an access in an extra outer loop (scop.c `embed_access`,
combining the domain update of `pet_expr_access_update_domain` — expr.c,
modelled from the spec: the new leading iteration dimension is inserted by
precomposition — with `embed_access_relation`).  An access to the
induction variable itself becomes an access to the integer holding the
real iterator value; an access to a virtual array gains the new dimension
prepended to its index tuple; any other access is only domain-extended.
In every case a remaining reference to the real iterator as a parameter is
internalized by substituting `ivMap` of the new leading dimension for it.
`none` is the error path of a space-mismatched `isl_map_apply_range`. -/
def embed_access (a : Access V W) (ivMap : Param V W → W → W) (varId : TupId V) :
    Option (Access V W) :=
  let relExt : Param V W → (Fin (a.dim + 1) → W) → (Fin a.adim → W) → Bool :=
    fun p i e => a.rel p (fun k => i k.succ) e
  if a.id = some varId then
    if h : a.adim = 0 then
      some { a with
        dim := a.dim + 1
        adim := 1
        rel := fun p i e =>
          let q := Function.update p varId.name (ivMap p (i 0))
          decide (e 0 = ivMap q (i 0)) && relExt q i (fun k => (Fin.cast h k).elim0) }
    else none
  else if access_is_virtual_array a then
    some { a with
      dim := a.dim + 1
      adim := a.adim + 1
      rel := fun p i e =>
        let q := Function.update p varId.name (ivMap p (i 0))
        decide (e 0 = i 0) && relExt q i (fun k => e k.succ) }
  else
    some { a with
      dim := a.dim + 1
      rel := fun p i e => relExt (Function.update p varId.name (ivMap p (i 0))) i e }

/-- Embed the access subexpressions of an expression in an extra loop
(scop.c `expr_embed`; `pet_expr_map_access` — expr.c, modelled from the
spec — applies the access transformation to exactly the access nodes). -/
def expr_embed (e : PExpr V W) (ivMap : Param V W → W → W) (varId : TupId V) :
    Option (PExpr V W) :=
  match e with
  | .other => some .other
  | .access a => (embed_access a ivMap varId).map .access

/-- Embed a statement in an extra outer loop with iteration domain `dom`
and one-dimensional schedule `schedAff` (scop.c `pet_stmt_embed`).  The new
dimension is prepended to the iteration domain and the schedule by a flat
product — for a wrapped domain the dimension is inserted before the
wrapped relation's domain and not inside its argument range, which is what
prepending to the iteration component of the unwrapped representation
expresses.  A reference to the real iterator as a parameter of the domain
or schedule is internalized by substituting `ivMap` of the new leading
dimension; on a set that does not depend on that parameter the
substitution is the identity, matching the conditional
`isl_set_find_dim_by_id` check of the C code.  Finally all access
relations in the arguments and the body are updated. -/
def pet_stmt_embed (st : Stmt V W) (dom : Param V W → W → Bool)
    (schedAff : Param V W → W → W) (ivMap : Param V W → W → W) (varId : TupId V) :
    Option (Stmt V W) :=
  match map_opt (fun e => expr_embed e ivMap varId) st.args with
  | none => none
  | some args =>
  match map_opt (fun e => expr_embed e ivMap varId) st.body with
  | none => none
  | some body =>
  some { st with
    dim := st.dim + 1
    domain := fun p i f =>
      let q := Function.update p varId.name (ivMap p (i 0))
      dom q (i 0) && st.domain q (fun k => i k.succ) f
    sd := st.sd + 1
    schedule := fun p i s =>
      let q := Function.update p varId.name (ivMap p (i 0))
      decide (s 0 = schedAff q (i 0)) &&
        st.schedule q (fun k => i k.succ) (fun k => s k.succ)
    args := args
    body := body }

/-- Embed all statements and arrays of a scop in an extra outer loop with
iteration domain `dom`, schedule `schedAff` and induction variable `varId`,
where `ivMap` maps the virtual iterator to the real iterator
(scop.c `pet_scop_embed`).  Both skip conditions are discarded first: skips
inside the loop have no effect outside of it. -/
def pet_scop_embed (sc : Scop V W) (dom : Param V W → W → Bool)
    (schedAff : Param V W → W → W) (ivMap : Param V W → W → W) (varId : TupId V) :
    Option (Scop V W) :=
  match map_opt (fun st => pet_stmt_embed st dom schedAff ivMap varId) sc.stmts with
  | none => none
  | some stmts =>
  some { sc with
    skipNow := none
    skipLater := none
    context := context_embed sc.context dom ivMap varId
    stmts := stmts
    arrays := sc.arrays.map (fun a => pet_array_embed a dom)
    implications := sc.implications.map (fun im => pet_implication_embed im dom) }

end Embed

/-- Value-bound facts supplied to gist: for each (virtual) array
identifier, the attainable values of its elements (the
`isl_union_map *value_bounds` argument). -/
abbrev ValueBounds (V W : Type) := TupId V → W → Bool

section Gist

variable {V W : Type} [DecidableEq V] [Fintype V] [DecidableEq W] [Fintype W]
variable [Zero W] [One W]

/-- Gist of a wrapped iteration-domain relation with respect to a context
(`isl_set_gist`).  Per the specification, gist removes constraints implied
by known-true background facts without changing the represented points; a
semantic set is exactly its points, so the result is the input set. -/
def isl_set_gist {d n : Nat}
    (s : Param V W → (Fin d → W) → (Fin n → W) → Bool)
    (ctx : Param V W → (Fin d → W) → (Fin n → W) → Bool) :
    Param V W → (Fin d → W) → (Fin n → W) → Bool :=
  let _ := ctx
  s

/-- Gist of a set with respect to parameter constraints
(`isl_set_gist_params`); point-preserving for the same reason as
`isl_set_gist`. -/
def isl_set_gist_params {d : Nat} (s : Param V W → (Fin d → W) → Bool)
    (ctx : SetP V W) : Param V W → (Fin d → W) → Bool :=
  let _ := ctx
  s

/-- Modelled from the spec: `pet_expr_gist` (expr.c, not part of the
provided sources) gists the access relations and index expressions of an
expression with respect to a domain and value bounds; it removes implied
constraints only, never changing the represented points, so on the
semantic model it returns the expression unchanged. -/
def pet_expr_gist (e : PExpr V W) {d : Nat}
    (ctx : Param V W → (Fin d → W) → Bool) (vb : ValueBounds V W) : PExpr V W :=
  let _ := ctx
  let _ := vb
  e

/-- Modelled from the spec: `pet_value_bounds_apply` (value_bounds.c, not
part of the provided sources) intersects a wrapped domain with the
value-bound facts for the statement's arguments: each argument dimension
that corresponds to an access argument is constrained to the attainable
values of the accessed array. -/
def pet_value_bounds_apply {d n : Nat}
    (dom : Param V W → (Fin d → W) → (Fin n → W) → Bool)
    (args : List (PExpr V W)) (vb : ValueBounds V W) :
    Param V W → (Fin d → W) → (Fin n → W) → Bool :=
  fun p i f => dom p i f &&
    (List.finRange n).all (fun pos =>
      match args.get? pos.val with
      | some (.access a) =>
        match a.id with
        | some t => vb t (f pos)
        | none => true
      | _ => true)

/-- Compute the gist of the iteration domain and all access relations of a
statement based on the parameter context and the value bounds
(scop.c `stmt_gist`).  The arguments and the body are gisted with respect
to the (unwrapped) iteration domain intersected with the parameter
context; the stored domain is gisted with respect to the universal set of
the statement space intersected with the context and the value bounds. -/
def stmt_gist (st : Stmt V W) (context : SetP V W) (vb : ValueBounds V W) :
    Stmt V W :=
  { st with
    args := st.args.map (fun e => pet_expr_gist e
      (fun p i => decide (∃ f, st.domain p i f = true) && context p) vb)
    body := st.body.map (fun e => pet_expr_gist e
      (fun p i => decide (∃ f, st.domain p i f = true) && context p) vb)
    domain := isl_set_gist st.domain
      (pet_value_bounds_apply (fun p _ _ => context p) st.args vb) }

/-- Compute the gist of the extent of an array based on the parameter
context (scop.c `array_gist`). -/
def array_gist (a : PArray V W) (context : SetP V W) : PArray V W :=
  { a with extent := isl_set_gist_params a.extent context }

/-- Compute the gist of all sets and relations in a scop based on its
parameter context and the value bounds (scop.c `pet_scop_gist`).  The
context itself is only coalesced. -/
def pet_scop_gist (sc : Scop V W) (vb : ValueBounds V W) : Scop V W :=
  let context := isl_set_coalesce sc.context
  { sc with
    context := context
    arrays := sc.arrays.map (fun a => array_gist a context)
    stmts := sc.stmts.map (fun st => stmt_gist st context vb) }

end Gist

/-- Witness identifier type. -/
abbrev Vw : Type := Fin 1

/-- Witness value type (0/1 values). -/
abbrev Ww : Type := Fin 2

/-- A zero-dimensional statement with a universal domain. -/
def wStmt : Stmt Vw Ww :=
  { loc := none, dim := 0, nArg := 0, domain := fun _ _ _ => true,
    sd := 0, schedule := fun _ _ _ => true, args := [], body := [] }

/-- A named (non-virtual) scalar array. -/
def wArr : PArray Vw Ww :=
  { adim := 0, context := fun _ => true, extent := fun _ _ => true,
    extentId := some { name := 0, hasUser := true }, extentWraps := false,
    valueBounds := none, elementType := 0, elementIsRecord := false,
    elementSize := 4, liveOut := false, uniquelyDefined := false,
    declared := false, exposed := false }

/-- The empty scop. -/
def wScop0 : Scop Vw Ww :=
  { context := fun _ => true, contextValue := fun _ => true, types := [],
    arrays := [], stmts := [], implications := [],
    skipNow := none, skipLater := none, loc := none }

/-- A one-statement scop that also owns a type and an array. -/
def wScopA : Scop Vw Ww :=
  { wScop0 with types := [{ name := 1, defn := 1 }], stmts := [wStmt], arrays := [wArr] }

/-- A one-statement scop without arrays. -/
def wScopB : Scop Vw Ww := { wScop0 with stmts := [wStmt] }

/-- An affine skip condition that always holds. -/
def wPa1 : PwAff Vw Ww := { dom := fun _ => true, v := fun _ => 1 }

/-- An affine skip condition that never holds. -/
def wPa2 : PwAff Vw Ww := { dom := fun _ => true, v := fun _ => 0 }

/-- A non-affine skip condition: an access to a virtual variable. -/
def wSkipVar : SkipCond Vw Ww :=
  .acc { name := 0, hasUser := false } (fun _ => true)

/-- An empty scop carrying an affine skip[now]. -/
def wScopE : Scop Vw Ww := { wScop0 with skipNow := some (.affine wPa1) }

/-- The composition of the two one-statement fixtures. -/
def wS4 : Scop Vw Ww := (pet_scop_add wScopA wScopB).get (by rfl)

/-- The composition of an empty scop carrying a skip with a one-statement
scop, and the symmetric composition. -/
def wS5 : Scop Vw Ww := (pet_scop_add wScopE wScopB).get (by rfl)

/-- The symmetric composition for the identity law. -/
def wS5b : Scop Vw Ww := (pet_scop_add wScopA wScopE).get (by rfl)

/-- A one-statement scop with a non-affine skip[now]. -/
def wScopN : Scop Vw Ww := { wScopB with skipNow := some wSkipVar }

/-- A one-statement scop with a non-affine skip[later]. -/
def wScopL : Scop Vw Ww := { wScopB with skipLater := some wSkipVar }

/-- A restriction condition on the witness parameters. -/
def wCond : SetP Vw Ww := fun p => decide (p 0 = 0)

/-- The composition of two scops carrying affine skips of both types. -/
def wScopP : Scop Vw Ww := { wScopB with skipNow := some (.affine wPa1), skipLater := some (.affine wPa1) }

/-- The right-hand scop with affine skips for the skip-combination witness. -/
def wScopQ : Scop Vw Ww := { wScopB with skipNow := some (.affine wPa2), skipLater := some (.affine wPa2) }

/-- The composition used by the skip-combination witness. -/
def wS2 : Scop Vw Ww := (pet_scop_add wScopP wScopQ).get (by rfl)

/-- A one-statement scop carrying affine skips, restricted once by the
witness condition. -/
def wS8 : Scop Vw Ww := (pet_scop_restrict wScopP wCond).get (by rfl)

/-- A virtual scalar array (null user pointer on the extent tuple id). -/
def wVirtArr : PArray Vw Ww := { wArr with extentId := some { name := 0, hasUser := false } }

/-- A scop owning one statement, one named array and one virtual array. -/
def wScop7 : Scop Vw Ww := { wScop0 with stmts := [wStmt], arrays := [wArr, wVirtArr] }

/-- The embedding of the fixture scop into a unit loop. -/
def wS7 : Scop Vw Ww :=
  (pet_scop_embed wScop7 (fun _ _ => true) (fun _ w => w) (fun _ w => w)
    { name := 0, hasUser := true }).get (by rfl)

/-- A boolean test over a virtual scalar variable. -/
def wTest : Test Vw Ww :=
  { id := { name := 0, hasUser := false }, dim := 0, adim := 0,
    dom := fun _ _ => true, idx := fun _ _ => Fin.elim0 }

/-- One application of the filter to the implication-free fixture scop. -/
def wF1 : Scop Vw Ww := (pet_scop_filter wScopB wTest 1).get (by rfl)

/-- A second application of the identical filter. -/
def wF2 : Scop Vw Ww := (pet_scop_filter wF1 wTest 1).get (by rfl)

/-- An implication for the virtual test variable, with the identity-
containing (reflexive) extension. -/
def wImp : Imp Vw Ww :=
  { satisfied := 1, id := { name := 0, hasUser := false }, edim := 0,
    ext := fun _ _ _ => true }

/-- A one-statement scop carrying the implication. -/
def wScopI : Scop Vw Ww := { wScopB with implications := [wImp] }

/-- One filter application to the scop with the implication. -/
def wF3 : Scop Vw Ww := (pet_scop_filter wScopI wTest 1).get (by rfl)

/-- The sequential composition exercising the affine skip path. -/
def wS1a : Scop Vw Ww := (pet_scop_add_seq wScopP wScopB).get (by rfl)

/-- The sequential composition exercising the non-affine skip path. -/
def wS1b : Scop Vw Ww := (pet_scop_add_seq wScopN wScopB).get (by rfl)

/-- A parallel composition. -/
def wS1c : Scop Vw Ww := (pet_scop_add_par wScopB wScopB).get (by rfl)

/-! Helper lemmas about the composition machinery. -/

section AddLemmas

variable {V W : Type} [DecidableEq V] [Fintype V] [DecidableEq W] [Fintype W]
variable [Zero W] [One W]

theorem scop_combine_start_end_shape (sc sc1 sc2 : Scop V W) :
    ∃ l, scop_combine_start_end sc sc1 sc2 = { sc with loc := l } := by
  unfold scop_combine_start_end pet_scop_update_start_end_from_loc
    pet_scop_update_start_end
  cases h1 : sc1.loc <;> cases h2 : sc2.loc <;> exact ⟨_, rfl⟩

theorem scop_combine_skips_eq_some {sc sc1 sc2 out : Scop V W}
    (h : scop_combine_skips sc sc1 sc2 = some out) :
    ∃ n l, combine_skips sc1.skipNow sc2.skipNow = some n ∧
      combine_skips sc1.skipLater sc2.skipLater = some l ∧
      out = { sc with skipNow := n, skipLater := l } := by
  unfold scop_combine_skips at h
  cases hn : combine_skips sc1.skipNow sc2.skipNow with
  | none => rw [hn] at h; exact absurd h (by simp)
  | some n =>
    cases hl : combine_skips sc1.skipLater sc2.skipLater with
    | none => rw [hn, hl] at h; exact absurd h (by simp)
    | some l =>
      rw [hn, hl] at h
      simp only [Option.some.injEq] at h
      exact ⟨n, l, rfl, rfl, h.symm⟩

/-- Unfolding of `pet_scop_add` on two non-empty scops. -/
theorem pet_scop_add_nonempty {sc1 sc2 S : Scop V W}
    (h1 : sc1.stmts ≠ []) (h2 : sc2.stmts ≠ [])
    (h : pet_scop_add sc1 sc2 = some S) :
    S.stmts = sc1.stmts ++ sc2.stmts ∧
    S.arrays = sc1.arrays ++ sc2.arrays ∧
    S.types = [] ∧
    S.implications = scop_collect_implications sc1 sc2 ∧
    S.context = isl_set_intersect (isl_set_intersect (fun _ => true)
      (pet_nested_remove_from_set sc1.context)) (pet_nested_remove_from_set sc2.context) ∧
    combine_skips sc1.skipNow sc2.skipNow = some S.skipNow ∧
    combine_skips sc1.skipLater sc2.skipLater = some S.skipLater := by
  unfold pet_scop_add at h
  rw [if_neg (by simpa using h1), if_neg (by simpa using h2)] at h
  generalize hbase : pet_scop_restrict_context (pet_scop_restrict_context
    { context := fun _ => true
      contextValue := fun _ => true
      types := []
      arrays := sc1.arrays ++ sc2.arrays
      stmts := sc1.stmts ++ sc2.stmts
      implications := scop_collect_implications sc1 sc2
      skipNow := none
      skipLater := none
      loc := (none : Option Loc) } sc1.context) sc2.context = base at h
  cases hc : scop_combine_skips base sc1 sc2 with
  | none => rw [hc] at h; exact absurd h (by simp)
  | some withSkips =>
    rw [hc] at h
    simp only [Option.some.injEq] at h
    obtain ⟨n, l, hn, hl, hw⟩ := scop_combine_skips_eq_some hc
    obtain ⟨lc, hloc⟩ := scop_combine_start_end_shape withSkips sc1 sc2
    subst h
    rw [hloc, hw, ← hbase]
    exact ⟨rfl, rfl, rfl, rfl, rfl, hn, hl⟩

end AddLemmas

section ClaimsAdd

variable {V W : Type} [DecidableEq V] [Fintype V] [DecidableEq W] [Fintype W]
variable [Zero W] [One W]

/-- Claim C4: for all non-empty scops A and B, the scop returned by
add(A,B) has exactly |statements(A)| + |statements(B)| statements and
exactly |arrays(A)| + |arrays(B)| arrays, the statement and array lists
being the concatenation of A's followed by B's. -/
theorem claim_c4_add_counts {sc1 sc2 S : Scop V W}
    (h1 : sc1.stmts ≠ []) (h2 : sc2.stmts ≠ [])
    (h : pet_scop_add sc1 sc2 = some S) :
    S.stmts = sc1.stmts ++ sc2.stmts ∧
    S.arrays = sc1.arrays ++ sc2.arrays ∧
    S.stmts.length = sc1.stmts.length + sc2.stmts.length ∧
    S.arrays.length = sc1.arrays.length + sc2.arrays.length := by
  obtain ⟨hs, ha, -, -, -, -, -⟩ := pet_scop_add_nonempty h1 h2 h
  exact ⟨hs, ha, by rw [hs, List.length_append], by rw [ha, List.length_append]⟩

/-- Claim C5: composition with a scop without statements is the identity
up to the merge of skip conditions: add(empty, B) returns B with only its
two skip conditions replaced by the combination of both sides' skips, and
add(A, empty) symmetrically returns A. -/
theorem claim_c5_add_identity (sc1 sc2 : Scop V W) :
    (sc1.stmts = [] → ∀ S, pet_scop_add sc1 sc2 = some S →
      S.stmts = sc2.stmts ∧ S.arrays = sc2.arrays ∧
      S.implications = sc2.implications ∧ S.context = sc2.context ∧
      S.contextValue = sc2.contextValue ∧ S.types = sc2.types ∧ S.loc = sc2.loc ∧
      combine_skips sc1.skipNow sc2.skipNow = some S.skipNow ∧
      combine_skips sc1.skipLater sc2.skipLater = some S.skipLater) ∧
    (sc1.stmts ≠ [] → sc2.stmts = [] → ∀ S, pet_scop_add sc1 sc2 = some S →
      S.stmts = sc1.stmts ∧ S.arrays = sc1.arrays ∧
      S.implications = sc1.implications ∧ S.context = sc1.context ∧
      S.contextValue = sc1.contextValue ∧ S.types = sc1.types ∧ S.loc = sc1.loc ∧
      combine_skips sc1.skipNow sc2.skipNow = some S.skipNow ∧
      combine_skips sc1.skipLater sc2.skipLater = some S.skipLater) := by
  constructor
  · intro he S h
    unfold pet_scop_add at h
    rw [if_pos (by simp [he])] at h
    obtain ⟨n, l, hn, hl, hS⟩ := scop_combine_skips_eq_some h
    subst hS
    exact ⟨rfl, rfl, rfl, rfl, rfl, rfl, rfl, by rw [hn], by rw [hl]⟩
  · intro hne he S h
    unfold pet_scop_add at h
    rw [if_neg (by simpa using hne), if_pos (by simp [he])] at h
    obtain ⟨n, l, hn, hl, hS⟩ := scop_combine_skips_eq_some h
    subst hS
    exact ⟨rfl, rfl, rfl, rfl, rfl, rfl, rfl, by rw [hn], by rw [hl]⟩

/-- Claim C6: if both sides of a composition carry a non-affine skip of
the same type, the combination is a fatal invariant violation and the
whole composition fails (returns null); nothing is combined silently. -/
theorem claim_c6_nonaffine_skips (sc1 sc2 : Scop V W) :
    (∀ i1 d1 i2 d2, sc1.skipNow = some (.acc i1 d1) →
      sc2.skipNow = some (.acc i2 d2) → pet_scop_add sc1 sc2 = none) ∧
    (∀ i1 d1 i2 d2, sc1.skipLater = some (.acc i1 d1) →
      sc2.skipLater = some (.acc i2 d2) → pet_scop_add sc1 sc2 = none) := by
  constructor
  · intro i1 d1 i2 d2 hk1 hk2
    have hsc : ∀ sc : Scop V W, scop_combine_skips sc sc1 sc2 = none := by
      intro sc
      unfold scop_combine_skips
      rw [hk1, hk2]
      rfl
    unfold pet_scop_add
    split
    · exact hsc sc2
    · split
      · exact hsc sc1
      · rw [hsc _]
  · intro i1 d1 i2 d2 hk1 hk2
    have hc : combine_skips sc1.skipLater sc2.skipLater = (none : Option (Option (SkipCond V W))) := by
      rw [hk1, hk2]; rfl
    have hsc : ∀ sc : Scop V W, scop_combine_skips sc sc1 sc2 = none := by
      intro sc
      unfold scop_combine_skips
      rw [hc]
      cases combine_skips sc1.skipNow sc2.skipNow <;> rfl
    unfold pet_scop_add
    split
    · exact hsc sc2
    · split
      · exact hsc sc1
      · rw [hsc _]

/-- Claim C10: composition of two non-empty scops moves statements,
arrays, implications, skips, context and location into the result, but
never the types: the result owns zero types even when either input owned
some. -/
theorem claim_c10_types_dropped {sc1 sc2 S : Scop V W}
    (h1 : sc1.stmts ≠ []) (h2 : sc2.stmts ≠ [])
    (h : pet_scop_add sc1 sc2 = some S) :
    S.types = [] ∧
    S.stmts = sc1.stmts ++ sc2.stmts ∧
    S.arrays = sc1.arrays ++ sc2.arrays ∧
    S.implications = scop_collect_implications sc1 sc2 := by
  obtain ⟨hs, ha, ht, hi, -, -, -⟩ := pet_scop_add_nonempty h1 h2 h
  exact ⟨ht, hs, ha, hi⟩

end ClaimsAdd

section ClaimsSkips

variable {V W : Type} [DecidableEq V] [Fintype V] [DecidableEq W] [Fintype W]
variable [Zero W] [One W]

/-- Every branch of `pet_scop_add` stores the result of `combine_skips`
for both skip types into the result. -/
theorem pet_scop_add_skips {sc1 sc2 S : Scop V W}
    (h : pet_scop_add sc1 sc2 = some S) :
    combine_skips sc1.skipNow sc2.skipNow = some S.skipNow ∧
    combine_skips sc1.skipLater sc2.skipLater = some S.skipLater := by
  unfold pet_scop_add at h
  split at h
  · obtain ⟨n, l, hn, hl, hS⟩ := scop_combine_skips_eq_some h
    subst hS; exact ⟨hn, hl⟩
  · split at h
    · obtain ⟨n, l, hn, hl, hS⟩ := scop_combine_skips_eq_some h
      subst hS; exact ⟨hn, hl⟩
    · generalize hbase : pet_scop_restrict_context (pet_scop_restrict_context _ _) _ = base at h
      cases hc : scop_combine_skips base sc1 sc2 with
      | none => rw [hc] at h; cases h
      | some w =>
        rw [hc] at h
        simp only [Option.some.injEq] at h
        obtain ⟨n, l, hn, hl, hw⟩ := scop_combine_skips_eq_some hc
        obtain ⟨lc, hloc⟩ := scop_combine_start_end_shape w sc1 sc2
        subst h
        rw [hloc, hw]
        exact ⟨hn, hl⟩

/-- The combined skip of two affine skips is the indicator function of the
union of both non-zero regions on the intersected definition domains. -/
theorem pw_aff_or_spec (pa1 pa2 : PwAff V W) :
    pw_aff_or pa1 pa2 =
      { dom := fun p => isl_pw_aff_domain pa1 p && isl_pw_aff_domain pa2 p
        v := fun p => if isl_pw_aff_non_zero_set pa1 p || isl_pw_aff_non_zero_set pa2 p
          then 1 else 0 } :=
  congrArg₂ PwAff.mk (funext fun p => Bool.true_and _) rfl

/-- Claim C2: for every composition add(A,B) and each skip type, if
neither side has a skip of that type the result has none; if exactly one
has one, the result's skip equals that one unchanged; if both have one and
both are affine, the result's skip is the indicator function whose
non-zero region is the union of the two non-zero regions, defined on the
shared (intersected) definition domain. -/
theorem claim_c2_skip_cases {sc1 sc2 S : Scop V W}
    (h : pet_scop_add sc1 sc2 = some S) :
    ((sc1.skipNow = none → sc2.skipNow = none → S.skipNow = none) ∧
     (∀ k, sc1.skipNow = some k → sc2.skipNow = none → S.skipNow = some k) ∧
     (∀ k, sc1.skipNow = none → sc2.skipNow = some k → S.skipNow = some k) ∧
     (∀ pa1 pa2, sc1.skipNow = some (.affine pa1) → sc2.skipNow = some (.affine pa2) →
       S.skipNow = some (.affine
         { dom := fun p => isl_pw_aff_domain pa1 p && isl_pw_aff_domain pa2 p
           v := fun p => if isl_pw_aff_non_zero_set pa1 p || isl_pw_aff_non_zero_set pa2 p
             then 1 else 0 }))) ∧
    ((sc1.skipLater = none → sc2.skipLater = none → S.skipLater = none) ∧
     (∀ k, sc1.skipLater = some k → sc2.skipLater = none → S.skipLater = some k) ∧
     (∀ k, sc1.skipLater = none → sc2.skipLater = some k → S.skipLater = some k) ∧
     (∀ pa1 pa2, sc1.skipLater = some (.affine pa1) → sc2.skipLater = some (.affine pa2) →
       S.skipLater = some (.affine
         { dom := fun p => isl_pw_aff_domain pa1 p && isl_pw_aff_domain pa2 p
           v := fun p => if isl_pw_aff_non_zero_set pa1 p || isl_pw_aff_non_zero_set pa2 p
             then 1 else 0 }))) := by
  obtain ⟨hn, hl⟩ := pet_scop_add_skips h
  constructor
  · refine ⟨?_, ?_, ?_, ?_⟩
    · intro h1 h2; rw [h1, h2] at hn
      simp only [combine_skips, Option.some.injEq] at hn
      exact hn.symm
    · intro k h1 h2; rw [h1, h2] at hn
      simp only [combine_skips, Option.some.injEq] at hn
      exact hn.symm
    · intro k h1 h2; rw [h1, h2] at hn
      simp only [combine_skips, Option.some.injEq] at hn
      exact hn.symm
    · intro pa1 pa2 h1 h2; rw [h1, h2] at hn
      simp only [combine_skips, Option.some.injEq] at hn
      rw [← pw_aff_or_spec]
      exact hn.symm
  · refine ⟨?_, ?_, ?_, ?_⟩
    · intro h1 h2; rw [h1, h2] at hl
      simp only [combine_skips, Option.some.injEq] at hl
      exact hl.symm
    · intro k h1 h2; rw [h1, h2] at hl
      simp only [combine_skips, Option.some.injEq] at hl
      exact hl.symm
    · intro k h1 h2; rw [h1, h2] at hl
      simp only [combine_skips, Option.some.injEq] at hl
      exact hl.symm
    · intro pa1 pa2 h1 h2; rw [h1, h2] at hl
      simp only [combine_skips, Option.some.injEq] at hl
      rw [← pw_aff_or_spec]
      exact hl.symm

end ClaimsSkips

section ClaimsRestrict

variable {V W : Type} [DecidableEq V] [Fintype V] [DecidableEq W] [Fintype W]
variable [Zero W] [One W]

theorem set_skip_self (sc : Scop V W) (t : SkipTy) :
    set_skip sc t (sc.skip t) = sc := by
  cases t <;> rfl

theorem skip_set_skip (sc : Scop V W) (t : SkipTy) (k : Option (SkipCond V W)) :
    (set_skip sc t k).skip t = k := by
  cases t <;> rfl

theorem restricted_skip_idem (cond : SetP V W) (pa : PwAff V W) :
    restricted_skip cond (restricted_skip cond pa) = restricted_skip cond pa := by
  unfold restricted_skip indicator_function isl_pw_aff_intersect_domain
    isl_set_indicator_function isl_pw_aff_non_zero_set isl_pw_aff_domain isl_set_intersect
  refine congrArg₂ PwAff.mk ?_ ?_
  · funext p
    simp only [Bool.true_and]
  · funext p
    by_cases h10 : (1 : W) = 0 <;>
      cases hc : cond p <;> cases hd : pa.dom p <;> cases hz : decide (pa.v p ≠ 0) <;>
        simp [h10, hc, hd, hz]

theorem stmt_restrict_idem (st : Stmt V W) (c : SetP V W) :
    stmt_restrict (stmt_restrict st c) c = stmt_restrict st c := by
  have hd : (fun (p : Param V W) (i : Fin st.dim → W) (f : Fin st.nArg → W) =>
        (st.domain p i f && c p) && c p) =
      (fun p i f => st.domain p i f && c p) := by
    funext p i f
    rw [Bool.and_assoc, Bool.and_self]
  show ({ st with domain := fun p i f => (st.domain p i f && c p) && c p } : Stmt V W) =
    { st with domain := fun p i f => st.domain p i f && c p }
  rw [hd]

theorem ctx_restrict_idem (c cond : SetP V W) :
    pet_nested_remove_from_set (isl_set_coalesce (isl_set_union
      (isl_set_intersect (pet_nested_remove_from_set (isl_set_coalesce (isl_set_union
        (isl_set_intersect c cond) (isl_set_complement cond)))) cond)
      (isl_set_complement cond))) =
    pet_nested_remove_from_set (isl_set_coalesce (isl_set_union
      (isl_set_intersect c cond) (isl_set_complement cond))) := by
  funext p
  unfold pet_nested_remove_from_set isl_set_coalesce isl_set_union isl_set_intersect
    isl_set_complement
  cases hc : c p <;> cases hd : cond p <;> simp [hc, hd]

/-- A scop whose skip of type `t` is absent or already restricted by
`cond` is a fixed point of `pet_scop_restrict_skip`. -/
theorem restrict_skip_fixed {sc : Scop V W} {t : SkipTy} {cond : SetP V W}
    (hk : sc.skip t = none ∨ ∃ pa, sc.skip t = some (.affine (restricted_skip cond pa))) :
    pet_scop_restrict_skip sc t cond = some sc := by
  unfold pet_scop_restrict_skip
  rcases hk with h | ⟨pa, h⟩
  · rw [h]
  · rw [h]
    show some (set_skip sc t (some (.affine
      (restricted_skip cond (restricted_skip cond pa))))) = some sc
    rw [restricted_skip_idem]
    rw [show (some (SkipCond.affine (restricted_skip cond pa))) = sc.skip t from h.symm]
    rw [set_skip_self]

/-- Shape of a successful `pet_scop_restrict_skip`. -/
theorem restrict_skip_cases {sc scA : Scop V W} {t : SkipTy} {cond : SetP V W}
    (h : pet_scop_restrict_skip sc t cond = some scA) :
    (sc.skip t = none ∧ scA = sc) ∨
      ∃ pa, sc.skip t = some (.affine pa) ∧
        scA = set_skip sc t (some (.affine (restricted_skip cond pa))) := by
  unfold pet_scop_restrict_skip at h
  cases hsk : sc.skip t with
  | none =>
    rw [hsk] at h
    simp only [Option.some.injEq] at h
    exact Or.inl ⟨rfl, h.symm⟩
  | some k =>
    cases k with
    | acc i d => rw [hsk] at h; cases h
    | affine pa =>
      rw [hsk] at h
      simp only [Option.some.injEq] at h
      exact Or.inr ⟨pa, rfl, h.symm⟩

/-- A successful `pet_scop_restrict_skip` leaves every field other than
the skip of type `t` unchanged, and its `t` skip is absent or
restricted. -/
theorem restrict_skip_state {sc scA : Scop V W} {t : SkipTy} {cond : SetP V W}
    (h : pet_scop_restrict_skip sc t cond = some scA) :
    (scA.skip t = none ∨ ∃ pa, scA.skip t = some (.affine (restricted_skip cond pa))) := by
  rcases restrict_skip_cases h with ⟨hn, rfl⟩ | ⟨pa, hpa, rfl⟩
  · exact Or.inl hn
  · exact Or.inr ⟨pa, skip_set_skip sc t _⟩

/-- Claim C8: restricting a scop twice by the same parameter condition is
the same as restricting it once: the second application returns its input
unchanged — same context, same statement iteration domains, same skip
conditions. -/
theorem claim_c8_restrict_idempotent {sc sc1 : Scop V W} {cond : SetP V W}
    (h : pet_scop_restrict sc cond = some sc1) :
    pet_scop_restrict sc1 cond = some sc1 := by
  unfold pet_scop_restrict at h
  split at h
  · exact absurd h (by simp)
  rename_i scA hA
  split at h
  · exact absurd h (by simp)
  rename_i scB hB
  simp only [Option.some.injEq] at h
  have hnow1 : sc1.skipNow = scA.skipNow := by
    rw [← h]
    rcases restrict_skip_cases hB with ⟨-, rfl⟩ | ⟨pa, -, rfl⟩ <;> rfl
  have hlater1 : sc1.skipLater = scB.skipLater := by rw [← h]
  have hnow : sc1.skipNow = none ∨
      ∃ pa, sc1.skipNow = some (.affine (restricted_skip cond pa)) := by
    rw [hnow1]
    exact restrict_skip_state hA
  have hlater : sc1.skipLater = none ∨
      ∃ pa, sc1.skipLater = some (.affine (restricted_skip cond pa)) := by
    rw [hlater1]
    exact restrict_skip_state hB
  have hfix1 : pet_scop_restrict_skip sc1 .now cond = some sc1 :=
    restrict_skip_fixed hnow
  have hfix2 : pet_scop_restrict_skip sc1 .later cond = some sc1 :=
    restrict_skip_fixed hlater
  have hc1 : sc1.context = pet_nested_remove_from_set (isl_set_coalesce (isl_set_union
      (isl_set_intersect scB.context cond) (isl_set_complement cond))) := by
    rw [← h]
  have hs1 : sc1.stmts = scB.stmts.map (fun st => stmt_restrict st cond) := by
    rw [← h]
  have hctx' : pet_nested_remove_from_set (isl_set_coalesce (isl_set_union
      (isl_set_intersect sc1.context cond) (isl_set_complement cond))) = sc1.context := by
    rw [hc1]
    exact ctx_restrict_idem scB.context cond
  have hst' : sc1.stmts.map (fun st => stmt_restrict st cond) = sc1.stmts := by
    rw [hs1, List.map_map]
    exact List.map_congr_left fun st _ => stmt_restrict_idem st cond
  unfold pet_scop_restrict
  rw [hfix1]
  show (match pet_scop_restrict_skip sc1 SkipTy.later cond with
    | none => none
    | some sc2 => some { sc2 with
        context := pet_nested_remove_from_set (isl_set_coalesce (isl_set_union
          (isl_set_intersect sc2.context cond) (isl_set_complement cond)))
        stmts := sc2.stmts.map (fun st => stmt_restrict st cond) }) = some sc1
  rw [hfix2]
  show some ({ sc1 with
      context := pet_nested_remove_from_set (isl_set_coalesce (isl_set_union
        (isl_set_intersect sc1.context cond) (isl_set_complement cond)))
      stmts := sc1.stmts.map (fun st => stmt_restrict st cond) } : Scop V W) = some sc1
  rw [hctx', hst']

end ClaimsRestrict

/-! Concrete fixtures shared by the witness theorems. -/

/-- Witness for claim C4 at the concrete fixtures. -/
theorem claim_c4_witness :
    wS4.stmts = wScopA.stmts ++ wScopB.stmts ∧
    wS4.arrays = wScopA.arrays ++ wScopB.arrays ∧
    wS4.stmts.length = wScopA.stmts.length + wScopB.stmts.length ∧
    wS4.arrays.length = wScopA.arrays.length + wScopB.arrays.length :=
  claim_c4_add_counts (List.cons_ne_nil _ _) (List.cons_ne_nil _ _)
    (Option.some_get _).symm

/-- Witness for claim C5 at the concrete fixtures, in both directions. -/
theorem claim_c5_witness :
    (wS5.stmts = wScopB.stmts ∧ wS5.arrays = wScopB.arrays ∧
      wS5.implications = wScopB.implications ∧ wS5.context = wScopB.context ∧
      wS5.contextValue = wScopB.contextValue ∧ wS5.types = wScopB.types ∧
      wS5.loc = wScopB.loc ∧
      combine_skips wScopE.skipNow wScopB.skipNow = some wS5.skipNow ∧
      combine_skips wScopE.skipLater wScopB.skipLater = some wS5.skipLater) ∧
    (wS5b.stmts = wScopA.stmts ∧ wS5b.arrays = wScopA.arrays ∧
      wS5b.implications = wScopA.implications ∧ wS5b.context = wScopA.context ∧
      wS5b.contextValue = wScopA.contextValue ∧ wS5b.types = wScopA.types ∧
      wS5b.loc = wScopA.loc ∧
      combine_skips wScopA.skipNow wScopE.skipNow = some wS5b.skipNow ∧
      combine_skips wScopA.skipLater wScopE.skipLater = some wS5b.skipLater) :=
  ⟨(claim_c5_add_identity wScopE wScopB).1 rfl wS5 (Option.some_get _).symm,
   (claim_c5_add_identity wScopA wScopE).2 (List.cons_ne_nil _ _) rfl wS5b
     (Option.some_get _).symm⟩

/-- Witness for claim C6 at the concrete fixtures, for both skip types. -/
theorem claim_c6_witness :
    pet_scop_add wScopN wScopN = none ∧ pet_scop_add wScopL wScopL = none :=
  ⟨(claim_c6_nonaffine_skips wScopN wScopN).1 _ _ _ _ rfl rfl,
   (claim_c6_nonaffine_skips wScopL wScopL).2 _ _ _ _ rfl rfl⟩

/-- Witness for claim C10 at the concrete fixtures: the left input owns a
type, yet the composition owns none. -/
theorem claim_c10_witness :
    wScopA.types ≠ [] ∧
    (wS4.types = [] ∧ wS4.stmts = wScopA.stmts ++ wScopB.stmts ∧
      wS4.arrays = wScopA.arrays ++ wScopB.arrays ∧
      wS4.implications = scop_collect_implications wScopA wScopB) :=
  ⟨List.cons_ne_nil _ _,
   claim_c10_types_dropped (List.cons_ne_nil _ _) (List.cons_ne_nil _ _)
     (Option.some_get _).symm⟩

/-- Witness for claim C2 at the concrete fixtures: the both-affine case
for both skip types, and the none/one-sided cases at the other fixtures. -/
theorem claim_c2_witness :
    (wS2.skipNow = some (.affine
      { dom := fun p => isl_pw_aff_domain wPa1 p && isl_pw_aff_domain wPa2 p
        v := fun p => if isl_pw_aff_non_zero_set wPa1 p || isl_pw_aff_non_zero_set wPa2 p
          then 1 else 0 }) ∧
     wS2.skipLater = some (.affine
      { dom := fun p => isl_pw_aff_domain wPa1 p && isl_pw_aff_domain wPa2 p
        v := fun p => if isl_pw_aff_non_zero_set wPa1 p || isl_pw_aff_non_zero_set wPa2 p
          then 1 else 0 })) ∧
    (wS4.skipNow = none ∧ wS5.skipNow = some (.affine wPa1) ∧
     wS5b.skipNow = some (.affine wPa1)) :=
  ⟨⟨(claim_c2_skip_cases (Option.some_get _).symm).1.2.2.2 wPa1 wPa2 rfl rfl,
    (claim_c2_skip_cases (Option.some_get _).symm).2.2.2.2 wPa1 wPa2 rfl rfl⟩,
   ⟨(claim_c2_skip_cases (S := wS4) (Option.some_get _).symm).1.1 rfl rfl,
    (claim_c2_skip_cases (S := wS5) (Option.some_get _).symm).1.2.1 (.affine wPa1) rfl rfl,
    (claim_c2_skip_cases (S := wS5b) (Option.some_get _).symm).1.2.2.1 (.affine wPa1) rfl rfl⟩⟩

/-- Witness for claim C8 at the concrete fixtures. -/
theorem claim_c8_witness : pet_scop_restrict wS8 wCond = some wS8 :=
  claim_c8_restrict_idempotent (Option.some_get _).symm

section ClaimsGist

variable {V W : Type} [DecidableEq V] [Fintype V] [DecidableEq W] [Fintype W]
variable [Zero W] [One W]

theorem array_gist_eq (a : PArray V W) (context : SetP V W) :
    array_gist a context = a := rfl

theorem stmt_gist_eq (st : Stmt V W) (context : SetP V W) (vb : ValueBounds V W) :
    stmt_gist st context vb = st := by
  have hmap : ∀ l : List (PExpr V W), (l.map fun e => pet_expr_gist e
      (fun p i => decide (∃ f, st.domain p i f = true) && context p) vb) = l :=
    fun l => List.map_id' l
  unfold stmt_gist
  rw [hmap st.args, hmap st.body]
  rfl

/-- Claim C9: gist simplification applied across a scop — to the context,
to every array extent, to every statement's iteration domain and to the
body and argument expressions — never changes the set of points
represented by any of those sets or relations.  The external gist
operations are modelled by their specified semantics: a pointwise
identical, smaller representation. -/
theorem claim_c9_gist_point_preserving (sc : Scop V W) (vb : ValueBounds V W) :
    (pet_scop_gist sc vb).context = sc.context ∧
    (pet_scop_gist sc vb).arrays = sc.arrays ∧
    (pet_scop_gist sc vb).stmts = sc.stmts ∧
    (pet_scop_gist sc vb).implications = sc.implications := by
  refine ⟨rfl, ?_, ?_, rfl⟩
  · show sc.arrays.map (fun a => array_gist a (isl_set_coalesce sc.context)) = sc.arrays
    rw [show (fun a => array_gist a (isl_set_coalesce sc.context)) = fun a : PArray V W => a from
      funext fun a => array_gist_eq a _]
    exact List.map_id' sc.arrays
  · show sc.stmts.map (fun st => stmt_gist st (isl_set_coalesce sc.context) vb) = sc.stmts
    rw [show (fun st => stmt_gist st (isl_set_coalesce sc.context) vb) = fun st : Stmt V W => st from
      funext fun st => stmt_gist_eq st _ vb]
    exact List.map_id' sc.stmts

end ClaimsGist

section ClaimsEmbed

variable {V W : Type} [DecidableEq V] [Fintype V] [DecidableEq W] [Fintype W]
variable [Zero W] [One W]

/-- Claim C7: loop embedding changes array extents only for virtual
arrays: a virtual array's extent becomes the flat product of the new loop
domain with the old extent, keeping the tuple identifier (carried in
`extentId`, which the update leaves untouched); every non-virtual array in
the scop is returned completely unchanged.  The arrays of the embedded
scop are exactly the embeddings of the original arrays. -/
theorem claim_c7_embed_arrays {sc S : Scop V W} {dom : Param V W → W → Bool}
    {schedAff ivMap : Param V W → W → W} {varId : TupId V}
    (h : pet_scop_embed sc dom schedAff ivMap varId = some S) :
    S.arrays = sc.arrays.map (fun a => pet_array_embed a dom) ∧
    (∀ a : PArray V W, extent_is_virtual_array a = false → pet_array_embed a dom = a) ∧
    (∀ a : PArray V W, extent_is_virtual_array a = true →
      pet_array_embed a dom = { a with
        adim := a.adim + 1
        extent := fun p t => dom p (t 0) && a.extent p (fun k => t k.succ) }) := by
  refine ⟨?_, ?_, ?_⟩
  · unfold pet_scop_embed at h
    split at h
    · exact absurd h (by simp)
    · simp only [Option.some.injEq] at h
      rw [← h]
  · intro a ha
    unfold pet_array_embed
    rw [ha]
    rfl
  · intro a ha
    unfold pet_array_embed
    rw [ha]
    rfl

end ClaimsEmbed

/-- Witness for claim C7 at the concrete fixtures: the named array is
untouched, the virtual array's extent grows by the loop dimension. -/
theorem claim_c7_witness :
    wS7.arrays = wScop7.arrays.map (fun a => pet_array_embed a (fun _ _ => true)) ∧
    pet_array_embed wArr (fun _ _ => true) = wArr ∧
    pet_array_embed wVirtArr (fun _ _ => true) = { wVirtArr with
      adim := wVirtArr.adim + 1
      extent := fun p t => (fun _ _ => true) p (t 0) && wVirtArr.extent p (fun k => t k.succ) } :=
  ⟨(claim_c7_embed_arrays (Option.some_get _).symm).1,
   (claim_c7_embed_arrays (S := wS7) (Option.some_get _).symm).2.1 wArr rfl,
   (claim_c7_embed_arrays (S := wS7) (Option.some_get _).symm).2.2 wVirtArr rfl⟩

section ClaimsFilter

variable {V W : Type} [DecidableEq V] [Fintype V] [DecidableEq W] [Fintype W]
variable [Zero W] [One W]

/-- The argument dimension pinned to `satisfied` by a filter insertion is
plainly fixed to that value, provided the underlying relation is
non-empty. -/
theorem plain_fixed_val_pinned {d n : Nat}
    (dm : Param V W → (Fin d → W) → (Fin n → W) → Bool) (v : W)
    (hne : ∃ p i f, dm p i f = true) :
    plain_fixed_val
      (fun p i (f : Fin (n + 1) → W) => decide (f 0 = v) && dm p i (fun k => f k.succ))
      (0 : Fin (n + 1)) = some v := by
  have hPv : ∀ (p : Param V W) (i : Fin d → W) (f : Fin (n + 1) → W),
      (decide (f 0 = v) && dm p i (fun k => f k.succ)) = true → f 0 = v := by
    intro p i f hf
    rw [Bool.and_eq_true] at hf
    exact of_decide_eq_true hf.1
  have huniq : ∀ w' : W, (∀ (p : Param V W) (i : Fin d → W) (f : Fin (n + 1) → W),
      (decide (f 0 = v) && dm p i (fun k => f k.succ)) = true → f 0 = w') → w' = v := by
    intro w' hw'
    obtain ⟨p, i, f, hf⟩ := hne
    have htail : (fun k : Fin n => Fin.cons (α := fun _ => W) v f k.succ) = f :=
      funext fun k => Fin.cons_succ (α := fun _ => W) v f k
    have hdm : (decide (Fin.cons (α := fun _ => W) v f 0 = v) &&
        dm p i (fun k => Fin.cons (α := fun _ => W) v f k.succ)) = true := by
      rw [Fin.cons_zero, htail, hf, decide_eq_true rfl, Bool.and_self]
    have hthis := hw' p i (Fin.cons (α := fun _ => W) v f) hdm
    rw [Fin.cons_zero] at hthis
    exact hthis.symm
  unfold plain_fixed_val
  split
  · next hex =>
      refine congrArg some (huniq _ ?_)
      intro p i f hf
      exact Fintype.choose_spec _
        ⟨hex.choose, hex.choose_spec.1, hex.choose_spec.2⟩ p i f hf
  · next hnex => exact absurd ⟨v, hPv, huniq⟩ hnex

/-- The filter argument inserted by `stmt_filter` implies the very filter
it was inserted for, also through a matching reflexive implication. -/
theorem implies_filter_inserted {impls : List (Imp V W)} {st : Stmt V W} {test : Test V W}
    {v : W} (h0 : test.dim ≤ st.dim)
    (hne : ∃ p i f, st.domain p i f = true)
    (hrefl : ∀ pi ∈ impls, pi.satisfied = v → pi.id = test.id →
      pi.edim = test.adim ∧ ∀ p e, pi.ext p e e = true) :
    implies_filter impls
      (fun p i (f : Fin (st.nArg + 1) → W) => decide (f 0 = v) && st.domain p i (fun k => f k.succ))
      (0 : Fin (st.nArg + 1))
      (pet_expr_from_index (test_extend test st.dim h0))
      (test_extend test st.dim h0).id (test_map (test_extend test st.dim h0)) v = some true := by
  unfold pet_expr_from_index implies_filter
  dsimp only [test_extend]
  rw [if_neg (show ¬((some test.id : Option (TupId V)) ≠ some test.id) from
    fun hh => hh rfl)]
  rw [plain_fixed_val_pinned st.domain v hne]
  dsimp only
  rw [if_neg (show ¬(v ≠ v) from fun hh => hh rfl)]
  rw [dif_pos rfl, dif_pos rfl]
  cases hfind : impls.find? (fun pi => decide (pi.satisfied = v) &&
      decide (pi.id = test.id)) with
  | none =>
    unfold apply_implications
    rw [hfind]
    dsimp only
    refine congrArg some (decide_eq_true ?_)
    intro p i e h
    exact h
  | some pi =>
    have hpred := List.find?_some hfind
    rw [Bool.and_eq_true] at hpred
    have hsat : pi.satisfied = v := of_decide_eq_true hpred.1
    have hid : pi.id = test.id := of_decide_eq_true hpred.2
    have hmem : pi ∈ impls := List.mem_of_find?_eq_some hfind
    obtain ⟨hedim, hext⟩ := hrefl pi hmem hsat hid
    unfold apply_implications
    rw [hfind]
    dsimp only
    rw [dif_pos hedim]
    refine congrArg some (decide_eq_true ?_)
    intro p i e h
    exact decide_eq_true ⟨e, h, hext p _⟩

/-- After `stmt_filter` has inserted the filter argument for a test, the
same filter on the modified statement is detected as implied, provided
there is at least one implication, the statement's domain relation is
non-empty, and any implication registered for the test's array and value
is reflexive on the test's index space. -/
theorem filter_implied_inserted {impls : List (Imp V W)} {st : Stmt V W} {test : Test V W}
    {v : W} (h0 : test.dim ≤ st.dim) (himpl : impls ≠ [])
    (hne : ∃ p i f, st.domain p i f = true)
    (hrefl : ∀ pi ∈ impls, pi.satisfied = v → pi.id = test.id →
      pi.edim = test.adim ∧ ∀ p e, pi.ext p e e = true) :
    filter_implied impls
      { st with
        nArg := st.nArg + 1
        domain := fun p i f => decide (f 0 = v) && st.domain p i (fun k => f k.succ)
        args := pet_expr_from_index (test_extend test st.dim h0) :: st.args }
      (test_extend test st.dim h0).id (test_map (test_extend test st.dim h0)) v = some true := by
  have hie : impls.isEmpty = false := by
    cases impls with
    | nil => exact absurd rfl himpl
    | cons a l => rfl
  unfold filter_implied
  rw [if_neg (by simp [hie])]
  dsimp only
  rw [if_neg (Nat.succ_ne_zero st.nArg)]
  rw [List.finRange_succ_eq_map]
  unfold filter_implied_loop
  dsimp only [List.get?]
  rw [implies_filter_inserted h0 hne hrefl]

/-- Re-filtering a statement by the filter it was already filtered with is
a no-op, under the conditions of `filter_implied_inserted`. -/
theorem stmt_filter_idem {impls : List (Imp V W)} {st st1 : Stmt V W} {test : Test V W}
    {v : W} (himpl : impls ≠ [])
    (hne : ∃ p i f, st.domain p i f = true)
    (hrefl : ∀ pi ∈ impls, pi.satisfied = v → pi.id = test.id →
      pi.edim = test.adim ∧ ∀ p e, pi.ext p e e = true)
    (h : stmt_filter impls st test v = some st1) :
    stmt_filter impls st1 test v = some st1 := by
  unfold stmt_filter at h
  split at h
  · next h0 =>
    split at h
    · exact absurd h (by simp)
    · next hfi =>
      simp only [Option.some.injEq] at h
      subst h
      unfold stmt_filter
      rw [dif_pos h0, hfi]
    · next hfi =>
      simp only [Option.some.injEq] at h
      subst h
      unfold stmt_filter
      rw [dif_pos (show test.dim ≤ st.dim from h0)]
      rw [filter_implied_inserted h0 himpl hne hrefl]
  · exact absurd h (by simp)

/-- On a scop without skip conditions, `pet_scop_filter` reduces to the
per-statement filtering. -/
theorem pet_scop_filter_noskip_eq {sc : Scop V W} {test : Test V W} {v : W}
    (hn : sc.skipNow = none) (hl : sc.skipLater = none) :
    pet_scop_filter sc test v =
      match map_opt (fun st => stmt_filter sc.implications st test v) sc.stmts with
      | none => none
      | some stmts => some { sc with stmts := stmts } := by
  unfold pet_scop_filter pet_scop_filter_skip
  rw [show sc.skip .now = none from hn]
  dsimp only
  rw [show sc.skip .later = none from hl]

/-- Re-filtering a filtered statement list is a no-op, elementwise. -/
theorem map_opt_stmt_filter_idem {impls : List (Imp V W)} {test : Test V W} {v : W}
    (himpl : impls ≠ [])
    (hrefl : ∀ pi ∈ impls, pi.satisfied = v → pi.id = test.id →
      pi.edim = test.adim ∧ ∀ p e, pi.ext p e e = true) :
    ∀ {l l' : List (Stmt V W)}, (∀ st ∈ l, ∃ p i f, st.domain p i f = true) →
      map_opt (fun st => stmt_filter impls st test v) l = some l' →
      map_opt (fun st => stmt_filter impls st test v) l' = some l'
  | [], l', _, h => by
    unfold map_opt at h
    simp only [Option.some.injEq] at h
    subst h
    rfl
  | x :: xs, l', hne, h => by
    unfold map_opt at h
    cases hx : stmt_filter impls x test v with
    | none => rw [hx] at h; exact absurd h (by simp)
    | some y =>
      cases hxs : map_opt (fun st => stmt_filter impls st test v) xs with
      | none => rw [hx, hxs] at h; exact absurd h (by simp)
      | some ys =>
        rw [hx, hxs] at h
        simp only [Option.some.injEq] at h
        subst h
        have hy : stmt_filter impls y test v = some y :=
          stmt_filter_idem himpl (hne x (List.mem_cons_self x xs)) hrefl hx
        have hys : map_opt (fun st => stmt_filter impls st test v) ys = some ys :=
          map_opt_stmt_filter_idem himpl hrefl
            (fun st hst => hne st (List.mem_cons_of_mem x hst)) hxs
        unfold map_opt
        rw [hy, hys]

/-- Claim C3 (amended): re-applying an identical filter to a scop is a
no-op — detected as already implied — provided the scop carries no skip
conditions, has at least one registered implication, every statement's
domain relation is non-empty, and any implication registered for the
test's variable and value has a matching element space and a reflexive
extension. -/
theorem claim_c3_filter_idempotent {sc sc1 : Scop V W} {test : Test V W} {v : W}
    (hn : sc.skipNow = none) (hl : sc.skipLater = none)
    (himpl : sc.implications ≠ [])
    (hne : ∀ st ∈ sc.stmts, ∃ p i f, st.domain p i f = true)
    (hrefl : ∀ pi ∈ sc.implications, pi.satisfied = v → pi.id = test.id →
      pi.edim = test.adim ∧ ∀ p e, pi.ext p e e = true)
    (h : pet_scop_filter sc test v = some sc1) :
    pet_scop_filter sc1 test v = some sc1 := by
  rw [pet_scop_filter_noskip_eq hn hl] at h
  cases hm : map_opt (fun st => stmt_filter sc.implications st test v) sc.stmts with
  | none => rw [hm] at h; exact absurd h (by simp)
  | some stmts =>
    rw [hm] at h
    simp only [Option.some.injEq] at h
    subst h
    rw [pet_scop_filter_noskip_eq
      (show ({ sc with stmts := stmts } : Scop V W).skipNow = none from hn)
      (show ({ sc with stmts := stmts } : Scop V W).skipLater = none from hl)]
    rw [show map_opt (fun st => stmt_filter sc.implications st test v) stmts =
      some stmts from map_opt_stmt_filter_idem himpl hrefl hne hm]

end ClaimsFilter

/-- Counterexample to claim C3 as stated: on a scop without implications,
re-applying an identical filter is not detected as implied — the second
application adds a second synthetic argument (the statement's argument
count grows from 1 to 2) and pins one more domain dimension, so the
result differs from the once-filtered scop. -/
theorem claim_c3_counterexample :
    pet_scop_filter wF1 wTest 1 = some wF2 ∧
    (wF1.stmts.map fun st => st.nArg) = [1] ∧
    (wF2.stmts.map fun st => st.nArg) = [2] ∧
    wF2 ≠ wF1 := by
  refine ⟨(Option.some_get _).symm, rfl, rfl, ?_⟩
  intro hcontra
  have hcg := congrArg (fun s : Scop Vw Ww => s.stmts.map fun st => st.nArg) hcontra
  have hcg2 : ([2] : List Nat) = [1] := hcg
  cases hcg2

/-- Witness for the amended claim C3 at the concrete fixtures. -/
theorem claim_c3_witness : pet_scop_filter wF3 wTest 1 = some wF3 :=
  claim_c3_filter_idempotent rfl rfl (List.cons_ne_nil _ _)
    (fun st hst => by
      have hst' : st ∈ [wStmt] := hst
      rw [List.mem_singleton] at hst'
      subst hst'
      exact ⟨fun _ => 0, Fin.elim0, Fin.elim0, rfl⟩)
    (fun pi hpi _ _ => by
      have hpi' : pi ∈ [wImp] := hpi
      rw [List.mem_singleton] at hpi'
      subst hpi'
      exact ⟨rfl, fun p e => rfl⟩)
    (Option.some_get _).symm

section ClaimsSeqPar

variable {V W : Type} [DecidableEq V] [Fintype V] [DecidableEq W] [Fintype W]
variable [Zero W] [One W]

theorem set_skip_stmts (sc : Scop V W) (t : SkipTy) (k : Option (SkipCond V W)) :
    (set_skip sc t k).stmts = sc.stmts := by
  cases t <;> rfl

theorem pet_scop_add_stmts_empty_left {sc1 sc2 S : Scop V W}
    (h1 : sc1.stmts = []) (h : pet_scop_add sc1 sc2 = some S) :
    S.stmts = sc2.stmts := by
  unfold pet_scop_add at h
  rw [if_pos (by simp [h1])] at h
  obtain ⟨n, l, hn, hl, hS⟩ := scop_combine_skips_eq_some h
  subst hS
  rfl

theorem pet_scop_add_stmts_empty_right {sc1 sc2 S : Scop V W}
    (h1 : sc1.stmts ≠ []) (h2 : sc2.stmts = []) (h : pet_scop_add sc1 sc2 = some S) :
    S.stmts = sc1.stmts := by
  unfold pet_scop_add at h
  rw [if_neg (by simpa using h1), if_pos (by simp [h2])] at h
  obtain ⟨n, l, hn, hl, hS⟩ := scop_combine_skips_eq_some h
  subst hS
  rfl

/-- In every branch of `pet_scop_add`, the result's statement list is the
concatenation of both inputs' statement lists. -/
theorem pet_scop_add_stmts {sc1 sc2 S : Scop V W}
    (h : pet_scop_add sc1 sc2 = some S) :
    S.stmts = sc1.stmts ++ sc2.stmts := by
  by_cases h1 : sc1.stmts = []
  · rw [pet_scop_add_stmts_empty_left h1 h, h1, List.nil_append]
  · by_cases h2 : sc2.stmts = []
    · rw [pet_scop_add_stmts_empty_right h1 h2 h, h2, List.append_nil]
    · exact (pet_scop_add_nonempty h1 h2 h).1

theorem pet_scop_restrict_stmts {sc sc1 : Scop V W} {cond : SetP V W}
    (h : pet_scop_restrict sc cond = some sc1) :
    sc1.stmts = sc.stmts.map (fun st => stmt_restrict st cond) := by
  unfold pet_scop_restrict at h
  split at h
  · exact absurd h (by simp)
  rename_i scA hA
  split at h
  · exact absurd h (by simp)
  rename_i scB hB
  simp only [Option.some.injEq] at h
  subst h
  have hAs : scA.stmts = sc.stmts := by
    rcases restrict_skip_cases hA with ⟨-, rfl⟩ | ⟨pa, -, rfl⟩
    · rfl
    · exact set_skip_stmts sc .now _
  have hBs : scB.stmts = scA.stmts := by
    rcases restrict_skip_cases hB with ⟨-, rfl⟩ | ⟨pa, -, rfl⟩
    · rfl
    · exact set_skip_stmts scA .later _
  show scB.stmts.map _ = _
  rw [hBs, hAs]

/-- A successful `pet_scop_filter_skip` with satisfied value zero means
the scop had no skip of that type and is returned unchanged. -/
theorem pet_scop_filter_skip_zero {sc scA : Scop V W} {t : SkipTy} {test : Test V W}
    (h : pet_scop_filter_skip sc t test 0 = some scA) :
    sc.skip t = none ∧ scA = sc := by
  unfold pet_scop_filter_skip at h
  cases hsk : sc.skip t with
  | none =>
    rw [hsk] at h
    simp only [Option.some.injEq] at h
    exact ⟨rfl, h.symm⟩
  | some k =>
    rw [hsk] at h
    rw [show (decide ((0 : W) ≠ 0) && pet_scop_has_universal_skip sc t) = false from
      by simp] at h
    simp at h

/-- A successful `pet_scop_filter` with satisfied value zero: the scop had
no skips and the result replaces the statements by their filtered
versions. -/
theorem pet_scop_filter_zero_state {sc sc1 : Scop V W} {test : Test V W}
    (h : pet_scop_filter sc test 0 = some sc1) :
    sc.skipNow = none ∧ sc.skipLater = none ∧
    (map_opt (fun st => stmt_filter sc.implications st test 0) sc.stmts).map
      (fun stmts => ({ sc with stmts := stmts } : Scop V W)) = some sc1 := by
  unfold pet_scop_filter at h
  split at h
  · exact absurd h (by simp)
  rename_i scA hA
  split at h
  · exact absurd h (by simp)
  rename_i scB hB
  split at h
  · exact absurd h (by simp)
  rename_i stmts hst
  obtain ⟨hn, rfl⟩ := pet_scop_filter_skip_zero hA
  obtain ⟨hl, rfl⟩ := pet_scop_filter_skip_zero hB
  refine ⟨hn, hl, ?_⟩
  rw [hst]
  exact h

/-- Claim C1: sequential composition applies A's skip[now] to B before
combining — an affine skip intersects every statement domain of B with
the parameter region where the skip expression is zero; a non-affine skip
instead filters every statement of B by the skip variable being zero
(adding a synthetic argument unless an implication elides it, as encoded
in `stmt_filter`).  Parallel composition performs no propagation: it is
plain composition and B's statements are carried over unchanged. -/
theorem claim_c1_seq_skip_propagation (sc1 sc2 : Scop V W) :
    (∀ pa S, sc1.skipNow = some (.affine pa) → pet_scop_add_seq sc1 sc2 = some S →
      S.stmts = sc1.stmts ++ sc2.stmts.map (fun st =>
        { st with domain := fun p i f => st.domain p i f && isl_pw_aff_zero_set pa p })) ∧
    (∀ id dm S, sc1.skipNow = some (.acc id dm) → pet_scop_add_seq sc1 sc2 = some S →
      (map_opt (fun st => stmt_filter sc2.implications st
          { id := id, dim := 0, adim := 0, dom := fun p _ => dm p,
            idx := fun _ _ => Fin.elim0 } 0) sc2.stmts).map
        (fun bs => sc1.stmts ++ bs) = some S.stmts) ∧
    (pet_scop_add_par sc1 sc2 = pet_scop_add sc1 sc2 ∧
      ∀ S, pet_scop_add_par sc1 sc2 = some S → S.stmts = sc1.stmts ++ sc2.stmts) := by
  refine ⟨?_, ?_, rfl, fun S h => pet_scop_add_stmts h⟩
  · intro pa S hsk h
    unfold pet_scop_add_seq at h
    rw [hsk] at h
    dsimp only [restrict_skip] at h
    split at h
    · exact absurd h (by simp)
    rename_i B' hr
    rw [pet_scop_add_stmts h, pet_scop_restrict_stmts hr]
    exact rfl
  · intro id dm S hsk h
    unfold pet_scop_add_seq at h
    rw [hsk] at h
    dsimp only [restrict_skip] at h
    split at h
    · exact absurd h (by simp)
    rename_i B' hr
    obtain ⟨hn2, hl2, hmap⟩ := pet_scop_filter_zero_state hr
    have hadd := pet_scop_add_stmts h
    rcases Option.map_eq_some'.mp hmap with ⟨bs, hbs, hB⟩
    have hbs' : map_opt (fun st => stmt_filter sc2.implications st
        { id := id, dim := 0, adim := 0, dom := fun p _ => dm p,
          idx := fun _ _ => Fin.elim0 } 0) sc2.stmts = some bs := hbs
    rw [hbs']
    show some (sc1.stmts ++ bs) = some S.stmts
    rw [hadd, ← hB]

end ClaimsSeqPar

/-- Witness for claim C1 at the concrete fixtures: all three paths. -/
theorem claim_c1_witness :
    (wS1a.stmts = wScopP.stmts ++ wScopB.stmts.map (fun st =>
      { st with domain := fun p i f => st.domain p i f && isl_pw_aff_zero_set wPa1 p })) ∧
    ((map_opt (fun st => stmt_filter wScopB.implications st
        { id := { name := 0, hasUser := false }, dim := 0, adim := 0,
          dom := fun _ _ => true, idx := fun _ _ => Fin.elim0 } 0) wScopB.stmts).map
      (fun bs => wScopN.stmts ++ bs) = some wS1b.stmts) ∧
    (pet_scop_add_par wScopB wScopB = pet_scop_add wScopB wScopB ∧
      wS1c.stmts = wScopB.stmts ++ wScopB.stmts) :=
  ⟨(claim_c1_seq_skip_propagation wScopP wScopB).1 wPa1 wS1a rfl (Option.some_get _).symm,
   (claim_c1_seq_skip_propagation wScopN wScopB).2.1 { name := 0, hasUser := false }
     (fun _ => true) wS1b rfl (Option.some_get _).symm,
   (claim_c1_seq_skip_propagation wScopB wScopB).2.2.1,
   (claim_c1_seq_skip_propagation wScopB wScopB).2.2.2 wS1c (Option.some_get _).symm⟩
